import Mathlib

/-!
Shallow embedding of the bid-admission and auction-lifecycle core of the
Bidz auction backend (src/backend/main.py, models.py, utils.py).

Modelling conventions:
* SQL `float` money columns are modelled as `Rat`; timestamps as `Int`;
  row ids and user ids as `Nat`.
* The database is a `Store`: the list of item rows and the append-only
  list of bid rows.
* `add_bid` embeds the handler `add_bid` of src/backend/main.py
  (lines 307-358).  Server-assigned values (the new bid's primary key and
  its `created_at`) are passed as parameters.  The `commitOk` flag models
  whether `session.commit()` succeeds: on `False` the handler's
  `except SQLAlchemyError` branch runs `session.rollback()` (discarding
  every pending change of the session) and raises HTTP 500, which the
  error type renders as `StorageUnavailable`.
* `mark_ended_auctions` embeds the startup-scheduled sweep of
  src/backend/main.py lines 56-69 (identical body in utils.py 36-44):
  one bulk UPDATE setting `is_active = False` on every item with
  `end_at <= now`.  It touches no other column.
-/

namespace Bidz

/-- Auction item row, from `Item` in src/backend/models.py (lines 49-92). -/
structure Item where
  id : Nat
  owner_id : Nat
  title : String
  description : String
  image : String
  category : String
  starting_bid : Rat
  current_bid : Option Rat
  is_active : Bool
  winner_id : Option Nat
  end_at : Int
  created_at : Int
  deriving DecidableEq, Repr

/-- Bid row, from `Bid` in src/backend/models.py (lines 95-108). -/
structure Bid where
  id : Nat
  user_id : Nat
  item_id : Nat
  bid : Rat
  created_at : Int
  deriving DecidableEq, Repr

/-- The persistent state: the `items` table and the `bids` table (ledger,
append-only in the embedded operations). -/
structure Store where
  items : List Item
  bids : List Bid
  deriving DecidableEq, Repr

/-- Outcomes of the `add_bid` handler that are errors.  Each constructor is
one `raise HTTPException` site of src/backend/main.py lines 307-358:
404 "Item not found" (`NotFound`), 400 "You cannot bid on your own item"
(`SelfBid`), 400 "Bid amount cannot be less than starting bid"
(`BelowStartingBid`), 400 "Bid amount cannot be less than current bid"
(`BelowCurrentBid`), and 500 "Failed to add the bid" (`StorageUnavailable`).
The handler has no branch rejecting a bid because the auction is inactive
or past `end_at`, hence no `AuctionClosed` constructor exists. -/
inductive BidError where
  | NotFound
  | SelfBid
  | BelowStartingBid
  | BelowCurrentBid
  | StorageUnavailable
  deriving DecidableEq, Repr

/-- Embeds `session.exec(select(Item).where(Item.id == item_id)).first()`. -/
def findItem (s : Store) (item_id : Nat) : Option Item :=
  s.items.find? (fun it => it.id == item_id)

/-- The row update `item.current_bid = bid_data.bid` as it lands at commit:
the item row with this id gets `current_bid` set to `amount`. -/
def setCurrentBid (items : List Item) (item_id : Nat) (amount : Rat) :
    List Item :=
  items.map (fun it =>
    if it.id == item_id then { it with current_bid := some amount } else it)

/-- The `try`/`except` block of `add_bid` (src/backend/main.py lines
340-356): stage `item.current_bid = bid_data.bid` and the new `Bid` row,
then commit.  If the commit fails (`commitOk = false`), `session.rollback()`
discards both staged changes and the handler raises HTTP 500, so the store
is returned unchanged with `StorageUnavailable`. -/
def commitBid (s : Store) (item_id : Nat) (user_id : Nat) (amount : Rat)
    (bidId : Nat) (ts : Int) (commitOk : Bool) :
    Store × Except BidError Bid :=
  let newBid : Bid :=
    { id := bidId, user_id := user_id, item_id := item_id,
      bid := amount, created_at := ts }
  if commitOk then
    ({ items := setCurrentBid s.items item_id amount,
       bids := s.bids ++ [newBid] }, Except.ok newBid)
  else
    (s, Except.error BidError.StorageUnavailable)

/-- The `add_bid` handler, src/backend/main.py lines 307-358, checks in
source order: item exists; bidder is not the owner; if `current_bid` is
null the amount must not be below `starting_bid`, otherwise it must not be
below `current_bid`; then the commit block.  The handler reads neither
`is_active` nor `end_at`.  Returns the store after the call together with
the handler's outcome. -/
def add_bid (s : Store) (item_id : Nat) (user_id : Nat) (amount : Rat)
    (bidId : Nat) (ts : Int) (commitOk : Bool) :
    Store × Except BidError Bid :=
  match findItem s item_id with
  | none => (s, Except.error BidError.NotFound)
  | some item =>
    if item.owner_id == user_id then
      (s, Except.error BidError.SelfBid)
    else
      match item.current_bid with
      | none =>
        if amount < item.starting_bid then
          (s, Except.error BidError.BelowStartingBid)
        else
          commitBid s item_id user_id amount bidId ts commitOk
      | some cb =>
        if amount < cb then
          (s, Except.error BidError.BelowCurrentBid)
        else
          commitBid s item_id user_id amount bidId ts commitOk

/-- The lifecycle sweep, src/backend/main.py lines 56-69: a single bulk
`UPDATE items SET is_active = false WHERE end_at <= now`.  No other column
(in particular neither `winner_id` nor `current_bid`) is written, and no
winner is computed. -/
def mark_ended_auctions (s : Store) (now : Int) : Store :=
  { s with
    items := s.items.map (fun it =>
      if it.end_at ≤ now then { it with is_active := false } else it) }

/-- One client bid request: the arguments of one `add_bid` call together
with the server-assigned bid id and timestamp and the fate of its commit. -/
structure BidReq where
  item_id : Nat
  user_id : Nat
  amount : Rat
  bidId : Nat
  ts : Int
  commitOk : Bool
  deriving DecidableEq, Repr

/-- The store after serving one `add_bid` call. -/
def bidStep (s : Store) (r : BidReq) : Store :=
  (add_bid s r.item_id r.user_id r.amount r.bidId r.ts r.commitOk).1

/-- The store after serving a sequence of `add_bid` calls one after the
other. -/
def runBids (s : Store) (reqs : List BidReq) : Store :=
  reqs.foldl bidStep s

/-- The stored `current_bid` of the item row with the given id. -/
def currentBidOf (s : Store) (item_id : Nat) : Option Rat :=
  (findItem s item_id).bind Item.current_bid

/-- The bid ledger of one auction: its bid rows in insertion order. -/
def ledgerOf (s : Store) (item_id : Nat) : List Bid :=
  s.bids.filter (fun b => b.item_id == item_id)

/-- The amounts of an auction's ledger, in insertion order. -/
def amountsOf (s : Store) (item_id : Nat) : List Rat :=
  (ledgerOf s item_id).map Bid.bid

/-- The maximum of a list of amounts, `none` for an empty ledger. -/
def maxAmt : List Rat → Option Rat
  | [] => none
  | a :: l => some (l.foldl max a)

/-- The operations of the core on the store: serving one bid request, or
one run of the lifecycle sweep at a given time. -/
inductive Op where
  | bid (r : BidReq)
  | sweep (now : Int)
  deriving DecidableEq, Repr

/-- One step of the core's state machine. -/
def step (s : Store) : Op → Store
  | Op.bid r => bidStep s r
  | Op.sweep now => mark_ended_auctions s now

/-- The validation phase of `add_bid` (src/backend/main.py lines 313-338)
evaluated against one read of the item row: `none` means every check
passes and the handler proceeds to the write block. -/
def bidDecision (s : Store) (item_id : Nat) (user_id : Nat) (amount : Rat) :
    Option BidError :=
  match findItem s item_id with
  | none => some BidError.NotFound
  | some item =>
    if item.owner_id == user_id then some BidError.SelfBid
    else
      match item.current_bid with
      | none =>
        if amount < item.starting_bid then some BidError.BelowStartingBid
        else none
      | some cb =>
        if amount < cb then some BidError.BelowCurrentBid
        else none

/-- The write phase of `add_bid` (src/backend/main.py lines 340-349)
applied to whatever store state holds at commit time: the handler writes
`current_bid = amount` and inserts the bid row unconditionally, without
re-checking the price its validation read. -/
def applyBid (s : Store) (item_id : Nat) (user_id : Nat) (amount : Rat)
    (bidId : Nat) (ts : Int) : Store :=
  { items := setCurrentBid s.items item_id amount,
    bids := s.bids ++ [{ id := bidId, user_id := user_id,
                         item_id := item_id, bid := amount,
                         created_at := ts }] }

/-- The running price invariant of one auction: its ledger amounts are
non-decreasing in insertion order and `current_bid` is the amount of the
most recently inserted ledger row. -/
def PriceInv (s : Store) (i : Nat) : Prop :=
  List.Chain' (· ≤ ·) (amountsOf s i) ∧
  currentBidOf s i = (amountsOf s i).getLast?

/-- The amount validation of `add_bid` as a predicate on the item
snapshot: the branch of src/backend/main.py lines 327-338 that raises no
exception. -/
def amountOk (it : Item) (amount : Rat) : Prop :=
  match it.current_bid with
  | none => ¬ amount < it.starting_bid
  | some cb => ¬ amount < cb

/-- The stored `is_active` flag of the item row with the given id. -/
def isActiveOf (s : Store) (item_id : Nat) : Option Bool :=
  (findItem s item_id).map Item.is_active

/-- The stored `end_at` timestamp of the item row with the given id. -/
def endAtOf (s : Store) (item_id : Nat) : Option Int :=
  (findItem s item_id).map Item.end_at

section Examples

/-- A closed auction row: `is_active` already false and `end_at` (time 10)
in the past relative to the bid considered below (time 50). -/
def closedItem : Item :=
  { id := 1, owner_id := 1, title := "Lamp", description := "An old lamp",
    image := "/static/uploads/item.jpg", category := "Home & Garden",
    starting_bid := 100, current_bid := some 100, is_active := false,
    winner_id := none, end_at := 10, created_at := 0 }

/-- A store holding the closed auction and its one prior bid. -/
def closedStore : Store :=
  { items := [closedItem],
    bids := [{ id := 1, user_id := 2, item_id := 1, bid := 100,
               created_at := 5 }] }

/-- An expired but still-active auction row holding one bid of 150. -/
def endedItem : Item :=
  { id := 1, owner_id := 1, title := "Vase", description := "A blue vase",
    image := "/static/uploads/item.jpg", category := "Art",
    starting_bid := 100, current_bid := some 150, is_active := true,
    winner_id := none, end_at := 20, created_at := 0 }

/-- A store holding the expired auction and its one bid by user 2. -/
def endedStore : Store :=
  { items := [endedItem],
    bids := [{ id := 1, user_id := 2, item_id := 1, bid := 150,
               created_at := 5 }] }

/-- A live auction row at price 150, the leading bid held by user 2. -/
def raceItem : Item :=
  { id := 1, owner_id := 1, title := "Watch", description := "A gold watch",
    image := "/static/uploads/item.jpg", category := "Jewelry",
    starting_bid := 100, current_bid := some 150, is_active := true,
    winner_id := none, end_at := 1000, created_at := 0 }

/-- A store holding the live auction and its leading bid by user 2. -/
def raceStore : Store :=
  { items := [raceItem],
    bids := [{ id := 1, user_id := 2, item_id := 1, bid := 150,
               created_at := 5 }] }

/-- A live auction row with no bid yet. -/
def freshItem : Item :=
  { id := 1, owner_id := 1, title := "Book", description := "A rare book",
    image := "/static/uploads/item.jpg", category := "Books",
    starting_bid := 100, current_bid := none, is_active := true,
    winner_id := none, end_at := 1000, created_at := 0 }

/-- A store holding only the fresh auction, empty ledger. -/
def freshStore : Store :=
  { items := [freshItem], bids := [] }

/-- Three bid requests on the fresh auction: 100 by user 2, then 150 by
user 3, then an equal 150 by user 2, all committing. -/
def demoReqs : List BidReq :=
  [ { item_id := 1, user_id := 2, amount := 100, bidId := 1, ts := 10,
      commitOk := true },
    { item_id := 1, user_id := 3, amount := 150, bidId := 2, ts := 20,
      commitOk := true },
    { item_id := 1, user_id := 2, amount := 150, bidId := 3, ts := 30,
      commitOk := true } ]

end Examples

/-- The handler `add_bid` is exactly `bidDecision` followed, on success, by `applyBid`
of the same arguments: the validation and the write phase of the handler. -/
theorem add_bid_eq_decision_apply (s : Store) (item_id user_id : Nat)
    (amount : Rat) (bidId : Nat) (ts : Int) :
    add_bid s item_id user_id amount bidId ts true =
      match bidDecision s item_id user_id amount with
      | some e => (s, Except.error e)
      | none =>
        (applyBid s item_id user_id amount bidId ts,
         Except.ok { id := bidId, user_id := user_id, item_id := item_id,
                     bid := amount, created_at := ts }) := by
  unfold add_bid bidDecision applyBid commitBid
  cases hf : findItem s item_id with
  | none => rfl
  | some item =>
    by_cases ho : item.owner_id == user_id
    · simp [ho]
    · cases hc : item.current_bid with
      | none =>
        by_cases ha : amount < item.starting_bid <;> simp [ho, hc, ha]
      | some cb =>
        by_cases ha : amount < cb <;> simp [ho, hc, ha]

/-- Lookup by id over the updated items list: the write preserves every
row's id, so the lookup finds the same row, updated iff it is the target. -/
theorem find?_setCurrentBid (l : List Item) (i j : Nat) (a : Rat) :
    (setCurrentBid l i a).find? (fun it => it.id == j) =
      (l.find? (fun it => it.id == j)).map
        (fun it =>
          if it.id == i then { it with current_bid := some a } else it) := by
  induction l with
  | nil => rfl
  | cons hd tl ih =>
    simp only [setCurrentBid, List.map_cons, List.find?_cons] at ih ⊢
    by_cases hi : hd.id = i
    · subst hi
      by_cases hj : hd.id = j
      · subst hj
        simp [-List.find?_map]
      · simp [-List.find?_map, beq_false_of_ne hj] at ih ⊢
        exact ih
    · by_cases hj : hd.id = j
      · subst hj
        simp [-List.find?_map, beq_false_of_ne hi, hi]
      · simp [-List.find?_map, beq_false_of_ne hi, beq_false_of_ne hj]
          at ih ⊢
        exact ih

/-- The ledger of auction `j` after inserting a bid row for auction `i`. -/
theorem ledger_append (bids : List Bid) (b : Bid) (j : Nat) :
    (bids ++ [b]).filter (fun x => x.item_id == j) =
      bids.filter (fun x => x.item_id == j) ++
        (if b.item_id == j then [b] else []) := by
  by_cases hb : b.item_id == j <;> simp [List.filter_append, hb]

/-- Case analysis of a successful validation followed by the commit block,
seen from auction `i`: either nothing about `i` changes (other auction, or
commit failure rolled back), or the target is `i` and the admitted amount
is recorded as the new `current_bid` and appended to the ledger. -/
theorem commitBid_cases (s : Store) (item : Item) (item_id user_id : Nat)
    (amount : Rat) (bidId : Nat) (ts : Int) (ck : Bool) (i : Nat)
    (hf : findItem s item_id = some item)
    (hadm : item.current_bid = none ∨
      ∃ cb, item.current_bid = some cb ∧ cb ≤ amount) :
    (currentBidOf (commitBid s item_id user_id amount bidId ts ck).1 i =
       currentBidOf s i ∧
     ledgerOf (commitBid s item_id user_id amount bidId ts ck).1 i =
       ledgerOf s i) ∨
    (item_id = i ∧
     currentBidOf (commitBid s item_id user_id amount bidId ts ck).1 i =
       some amount ∧
     ledgerOf (commitBid s item_id user_id amount bidId ts ck).1 i =
       ledgerOf s i ++ [{ id := bidId, user_id := user_id,
                          item_id := item_id, bid := amount,
                          created_at := ts }] ∧
     (∀ c, currentBidOf s i = some c → c ≤ amount)) := by
  have hid : item.id = item_id := by
    have h2 := List.find?_some hf
    simpa using h2
  cases ck with
  | false => exact Or.inl ⟨rfl, rfl⟩
  | true =>
    by_cases hji : item_id = i
    · subst hji
      refine Or.inr ⟨rfl, ?_, ?_, ?_⟩
      · simp only [commitBid, currentBidOf, findItem, if_true]
        rw [find?_setCurrentBid]
        have hf2 : s.items.find? (fun it => it.id == item_id) =
            some item := hf
        rw [hf2]
        simp [hid]
      · simp only [commitBid, ledgerOf, if_true]
        rw [ledger_append]
        simp
      · intro c hc
        simp only [currentBidOf, hf, Option.some_bind] at hc
        rcases hadm with hnone | ⟨cb, hcb, hge⟩
        · rw [hnone] at hc
          cases hc
        · rw [hcb] at hc
          cases hc
          exact hge
    · refine Or.inl ⟨?_, ?_⟩
      · simp only [commitBid, currentBidOf, findItem, if_true]
        rw [find?_setCurrentBid]
        cases hfj : s.items.find? (fun it => it.id == i) with
        | none => rfl
        | some itj =>
          have hjid : itj.id = i := by
            have h2 := List.find?_some hfj
            simpa using h2
          have hne : ¬ itj.id = item_id := by
            rw [hjid]
            exact fun h => hji h.symm
          simp [hne]
      · simp only [commitBid, ledgerOf, if_true]
        rw [ledger_append]
        have hne : (({ id := bidId, user_id := user_id,
                       item_id := item_id, bid := amount,
                       created_at := ts } : Bid).item_id == i) = false :=
          beq_false_of_ne hji
        simp [hne]

/-- Case analysis of one served bid request, seen from auction `i`: either
the call leaves `current_bid` and the ledger of `i` untouched, or it
admits a bid on `i`, in which case the new row is appended to the ledger,
`current_bid` becomes the admitted amount, and that amount is at least
any previously stored `current_bid`. -/
theorem bidStep_cases (s : Store) (r : BidReq) (i : Nat) :
    (currentBidOf (bidStep s r) i = currentBidOf s i ∧
     ledgerOf (bidStep s r) i = ledgerOf s i) ∨
    (r.item_id = i ∧
     currentBidOf (bidStep s r) i = some r.amount ∧
     ledgerOf (bidStep s r) i =
       ledgerOf s i ++ [{ id := r.bidId, user_id := r.user_id,
                          item_id := r.item_id, bid := r.amount,
                          created_at := r.ts }] ∧
     (∀ c, currentBidOf s i = some c → c ≤ r.amount)) := by
  unfold bidStep add_bid
  split
  next => exact Or.inl ⟨rfl, rfl⟩
  next item hf =>
    split
    next => exact Or.inl ⟨rfl, rfl⟩
    next ho =>
      split
      next hc =>
        split
        next => exact Or.inl ⟨rfl, rfl⟩
        next ha =>
          exact commitBid_cases s item r.item_id r.user_id r.amount
            r.bidId r.ts r.commitOk i hf (Or.inl hc)
      next cb hc =>
        split
        next => exact Or.inl ⟨rfl, rfl⟩
        next ha =>
          exact commitBid_cases s item r.item_id r.user_id r.amount
            r.bidId r.ts r.commitOk i hf
            (Or.inr ⟨cb, hc, le_of_not_lt ha⟩)

/-- One served bid request preserves the price invariant of every
auction. -/
theorem priceInv_step (s : Store) (r : BidReq) (i : Nat)
    (h : PriceInv s i) : PriceInv (bidStep s r) i := by
  rcases bidStep_cases s r i with ⟨hcb, hld⟩ | ⟨hti, hcb, hld, hle⟩
  · have ham : amountsOf (bidStep s r) i = amountsOf s i := by
      simp only [amountsOf, hld]
    exact ⟨by rw [ham]; exact h.1, by rw [ham, hcb]; exact h.2⟩
  · have ham : amountsOf (bidStep s r) i = amountsOf s i ++ [r.amount] := by
      simp only [amountsOf, hld, List.map_append]
      rfl
    constructor
    · rw [ham]
      refine List.Chain'.append h.1 (List.chain'_singleton r.amount) ?_
      intro x hx y hy
      have hxc : currentBidOf s i = some x := by
        rw [h.2]
        exact hx
      have hyx : r.amount = y := by
        simpa using hy
      rw [← hyx]
      exact hle x hxc
    · rw [ham, hcb]
      simp

/-- Every served sequence of bid requests preserves the price invariant. -/
theorem priceInv_run (s : Store) (reqs : List BidReq) (i : Nat)
    (h : PriceInv s i) : PriceInv (runBids s reqs) i := by
  induction reqs generalizing s with
  | nil => exact h
  | cons r rest ih => exact ih (bidStep s r) (priceInv_step s r i h)

/-- On a non-decreasing list the maximum is the last element. -/
theorem maxAmt_chain (l : List Rat) (h : List.Chain' (· ≤ ·) l) :
    maxAmt l = l.getLast? := by
  match l with
  | [] => rfl
  | [a] => rfl
  | a :: b :: t =>
    have hab : a ≤ b := (List.chain'_cons.mp h).1
    have ih := maxAmt_chain (b :: t) (List.chain'_cons.mp h).2
    simp only [maxAmt, List.foldl_cons] at ih ⊢
    rw [max_eq_right hab, List.getLast?_cons_cons]
    exact ih

/-- C1: refuted on the code.  `add_bid` has no activity check at all: a bid
of 150 by user 2 on the auction of `closedStore`, whose `is_active` is
false and whose `end_at` (10) precedes the bid time (50), is admitted —
the call returns the new bid row, `current_bid` is overwritten to 150 and
the row is appended to the ledger, where the claim requires rejection with
`AuctionClosed` and no mutation. -/
theorem add_bid_admits_on_closed_auction :
    closedItem.is_active = false ∧ closedItem.end_at < 50 ∧
    add_bid closedStore 1 2 150 2 50 true =
      ({ items := [{ closedItem with current_bid := some 150 }],
         bids := closedStore.bids ++
           [{ id := 2, user_id := 2, item_id := 1, bid := 150,
              created_at := 50 }] },
       Except.ok { id := 2, user_id := 2, item_id := 1, bid := 150,
                   created_at := 50 }) := by
  refine ⟨rfl, by decide, ?_⟩
  rfl

/-- C2: refuted on the code.  The sweep flips `is_active` of the expired
auction of `endedStore` (which has a bid of 150 by user 2 in its ledger)
but leaves `winner_id` at `none`, where the claim requires it to be set to
the highest bidder; moreover on every store the sweep preserves the
`winner_id` column of every row, so no code path of the lifecycle sweep
ever assigns a winner. -/
theorem sweep_never_assigns_winner :
    (mark_ended_auctions endedStore 100 =
      { endedStore with items := [{ endedItem with is_active := false }] }) ∧
    (∀ s : Store, ∀ now : Int,
      (mark_ended_auctions s now).items.map Item.winner_id =
        s.items.map Item.winner_id) := by
  constructor
  · rfl
  · intro s now
    simp only [mark_ended_auctions, List.map_map]
    refine List.map_congr_left ?_
    intro it _
    by_cases h : it.end_at ≤ now <;> simp [h]

/-- C3: refuted on the code.  `add_bid` is a naive read-validate-write:
the handler has no compare-and-swap, no `Stale` outcome and no retry loop
(no such constructor or code path exists).  In the interleaving
read-2, read-3, write-2, write-3 of two concurrent bids of 200 by users 2
and 3 on `raceStore` (current price 150), both validations pass against
the same prior `current_bid` of 150, and both writes land, so two bids
are admitted against one and the same prior price, where the claim allows
at most one admission per `current_bid` value. -/
theorem concurrent_bids_double_admitted :
    currentBidOf raceStore 1 = some 150 ∧
    bidDecision raceStore 1 2 200 = none ∧
    bidDecision raceStore 1 3 200 = none ∧
    ledgerOf (applyBid (applyBid raceStore 1 2 200 2 50) 1 3 200 3 51) 1 =
      ledgerOf raceStore 1 ++
        [{ id := 2, user_id := 2, item_id := 1, bid := 200,
           created_at := 50 },
         { id := 3, user_id := 3, item_id := 1, bid := 200,
           created_at := 51 }] :=
  ⟨rfl, rfl, rfl, rfl⟩

/-- C4: for every sequence of bid requests served on an auction that
starts with an empty ledger and unset `current_bid`, the ledger amounts
in insertion order are non-decreasing, `current_bid` always equals the
amount of the most recently admitted bid, and the final `current_bid`
equals the maximum admitted amount. -/
theorem bid_price_monotone (s0 : Store) (i : Nat) (reqs : List BidReq)
    (hled : ledgerOf s0 i = []) (hcur : currentBidOf s0 i = none) :
    List.Chain' (· ≤ ·) (amountsOf (runBids s0 reqs) i) ∧
    currentBidOf (runBids s0 reqs) i =
      (amountsOf (runBids s0 reqs) i).getLast? ∧
    currentBidOf (runBids s0 reqs) i =
      maxAmt (amountsOf (runBids s0 reqs) i) := by
  have h0 : PriceInv s0 i := by
    constructor
    · simp [amountsOf, hled]
    · simp [amountsOf, hled, hcur]
  have h := priceInv_run s0 reqs i h0
  exact ⟨h.1, h.2, by rw [maxAmt_chain _ h.1]; exact h.2⟩

/-- Witness for C4: the three bids of `demoReqs` (100, then 150, then an
equal 150) served on the fresh auction. -/
theorem bid_price_monotone_witness :
    ledgerOf freshStore 1 = [] ∧ currentBidOf freshStore 1 = none ∧
    (List.Chain' (· ≤ ·) (amountsOf (runBids freshStore demoReqs) 1) ∧
     currentBidOf (runBids freshStore demoReqs) 1 =
       (amountsOf (runBids freshStore demoReqs) 1).getLast? ∧
     currentBidOf (runBids freshStore demoReqs) 1 =
       maxAmt (amountsOf (runBids freshStore demoReqs) 1)) :=
  ⟨rfl, rfl, bid_price_monotone freshStore 1 demoReqs rfl rfl⟩

/-- C5: on an existing auction with `current_bid` set, a non-owner bidder
is rejected with `BelowCurrentBid` exactly when the amount is strictly
below `current_bid`; in particular an amount equal to `current_bid` is
admitted: the row is appended to the ledger and `current_bid` is assigned
the numerically unchanged amount. -/
theorem equal_bid_admitted (s : Store) (i u : Nat) (it : Item) (c : Rat)
    (bidId : Nat) (ts : Int)
    (hf : findItem s i = some it) (ho : it.owner_id ≠ u)
    (hc : it.current_bid = some c) :
    (∀ amount : Rat,
      (add_bid s i u amount bidId ts true).2 =
          Except.error BidError.BelowCurrentBid ↔ amount < c) ∧
    (add_bid s i u c bidId ts true).2 =
      Except.ok { id := bidId, user_id := u, item_id := i, bid := c,
                  created_at := ts } ∧
    currentBidOf (add_bid s i u c bidId ts true).1 i = some c ∧
    ledgerOf (add_bid s i u c bidId ts true).1 i =
      ledgerOf s i ++ [{ id := bidId, user_id := u, item_id := i,
                         bid := c, created_at := ts }] := by
  have hob : (it.owner_id == u) = false := beq_false_of_ne ho
  have hid : it.id = i := by
    have h2 := List.find?_some hf
    simpa using h2
  have hdec : ∀ amount : Rat, bidDecision s i u amount =
      if amount < c then some BidError.BelowCurrentBid else none := by
    intro amount
    simp [bidDecision, hf, hob, hc]
  have happ : (add_bid s i u c bidId ts true).1 =
      applyBid s i u c bidId ts := by
    rw [add_bid_eq_decision_apply, hdec c]
    simp
  refine ⟨?_, ?_, ?_, ?_⟩
  · intro amount
    rw [add_bid_eq_decision_apply, hdec amount]
    by_cases hlt : amount < c <;> simp [hlt]
  · rw [add_bid_eq_decision_apply, hdec c]
    simp
  · rw [happ]
    simp only [applyBid, currentBidOf, findItem]
    rw [find?_setCurrentBid]
    have hf2 : s.items.find? (fun x => x.id == i) = some it := hf
    rw [hf2]
    simp [hid]
  · rw [happ]
    simp only [applyBid, ledgerOf]
    rw [ledger_append]
    simp

/-- Witness for C5: user 3 bids exactly the current price 150 on the
auction of `raceStore` and is admitted. -/
theorem equal_bid_admitted_witness :
    findItem raceStore 1 = some raceItem ∧ raceItem.owner_id ≠ 3 ∧
    raceItem.current_bid = some 150 ∧
    ((∀ amount : Rat,
      (add_bid raceStore 1 3 amount 4 60 true).2 =
          Except.error BidError.BelowCurrentBid ↔ amount < 150) ∧
     (add_bid raceStore 1 3 150 4 60 true).2 =
       Except.ok { id := 4, user_id := 3, item_id := 1, bid := 150,
                   created_at := 60 } ∧
     currentBidOf (add_bid raceStore 1 3 150 4 60 true).1 1 = some 150 ∧
     ledgerOf (add_bid raceStore 1 3 150 4 60 true).1 1 =
       ledgerOf raceStore 1 ++ [{ id := 4, user_id := 3, item_id := 1,
                                  bid := 150, created_at := 60 }]) :=
  ⟨rfl, by decide, rfl,
    equal_bid_admitted raceStore 1 3 raceItem 150 4 60 rfl (by decide) rfl⟩

/-- C7: running the lifecycle sweep twice with the same `now` leaves the
store exactly as after one run: the second pass rewrites `is_active` of
the same rows to the value they already hold and touches no other field. -/
theorem sweep_idempotent (s : Store) (now : Int) :
    mark_ended_auctions (mark_ended_auctions s now) now =
      mark_ended_auctions s now := by
  simp only [mark_ended_auctions, List.map_map]
  congr 1
  refine List.map_congr_left ?_
  intro it _
  by_cases h : it.end_at ≤ now <;> simp [h]

/-- Lookup by id over the swept items list: the sweep preserves every
row's id, so the lookup finds the same row, flipped iff expired. -/
theorem find?_markEnded (l : List Item) (now : Int) (j : Nat) :
    (l.map (fun it =>
        if it.end_at ≤ now then { it with is_active := false } else it)).find?
        (fun it => it.id == j) =
      (l.find? (fun it => it.id == j)).map (fun it =>
        if it.end_at ≤ now then { it with is_active := false } else it) := by
  induction l with
  | nil => rfl
  | cons hd tl ih =>
    simp only [List.map_cons, List.find?_cons] at ih ⊢
    by_cases hj : hd.id = j
    · subst hj
      by_cases he : hd.end_at ≤ now <;> simp [-List.find?_map, he]
    · by_cases he : hd.end_at ≤ now <;>
        simp [-List.find?_map, he, beq_false_of_ne hj] at ih ⊢ <;>
        exact ih

/-- Serving a bid request never changes any row's `is_active` flag. -/
theorem bidStep_isActive (s : Store) (r : BidReq) (i : Nat) :
    isActiveOf (bidStep s r) i = isActiveOf s i := by
  unfold bidStep add_bid
  split
  next => rfl
  next item hf =>
    split
    next => rfl
    next =>
      have hcommit : ∀ ck,
          isActiveOf
            (commitBid s r.item_id r.user_id r.amount r.bidId r.ts ck).1
            i = isActiveOf s i := by
        intro ck
        cases ck with
        | false => rfl
        | true =>
          have hred :
              (commitBid s r.item_id r.user_id r.amount r.bidId r.ts
                true).1.items = setCurrentBid s.items r.item_id r.amount :=
            rfl
          simp only [isActiveOf, findItem, hred]
          rw [find?_setCurrentBid]
          cases hfj : s.items.find? (fun it => it.id == i) with
          | none => rfl
          | some itj =>
            by_cases hcase : itj.id = r.item_id <;> simp [hcase]
      split
      next hc =>
        split
        next => rfl
        next => exact hcommit r.commitOk
      next cb hc =>
        split
        next => rfl
        next => exact hcommit r.commitOk

/-- The `is_active` flag of a row after one sweep, in terms of the row
before the sweep. -/
theorem sweep_isActive (s : Store) (now : Int) (i : Nat) :
    isActiveOf (mark_ended_auctions s now) i =
      (findItem s i).map (fun it =>
        if it.end_at ≤ now then false else it.is_active) := by
  simp only [isActiveOf, mark_ended_auctions, findItem]
  rw [find?_markEnded]
  cases hfi : s.items.find? (fun it => it.id == i) with
  | none => rfl
  | some it =>
    by_cases he : it.end_at ≤ now <;> simp [he]

/-- C6: under any single core operation, a row's `is_active` flag never
returns to true, and it changes value only when the operation is a sweep
at a time `now` with the row's `end_at ≤ now`, flipping true to false. -/
theorem is_active_one_way (s : Store) (op : Op) (i : Nat) :
    (isActiveOf (step s op) i = some true →
      isActiveOf s i = some true) ∧
    (isActiveOf (step s op) i ≠ isActiveOf s i →
      isActiveOf s i = some true ∧
      isActiveOf (step s op) i = some false ∧
      ∃ now, op = Op.sweep now ∧
        ∃ e, endAtOf s i = some e ∧ e ≤ now) := by
  cases op with
  | bid r =>
    have h : isActiveOf (step s (Op.bid r)) i = isActiveOf s i :=
      bidStep_isActive s r i
    constructor
    · intro h2
      rw [h] at h2
      exact h2
    · intro hne
      exact absurd h hne
  | sweep now =>
    have h : isActiveOf (step s (Op.sweep now)) i =
        (findItem s i).map (fun it =>
          if it.end_at ≤ now then false else it.is_active) :=
      sweep_isActive s now i
    cases hfi : findItem s i with
    | none =>
      have h1 : isActiveOf (step s (Op.sweep now)) i = none := by
        rw [h, hfi]
        rfl
      have h2 : isActiveOf s i = none := by
        simp [isActiveOf, hfi]
      constructor
      · intro hx
        rw [h1] at hx
        cases hx
      · intro hne
        rw [h1, h2] at hne
        exact absurd rfl hne
    | some it =>
      have h2 : isActiveOf s i = some it.is_active := by
        simp [isActiveOf, hfi]
      by_cases hend : it.end_at ≤ now
      · have h1 : isActiveOf (step s (Op.sweep now)) i = some false := by
          rw [h, hfi]
          simp [hend]
        cases hb : it.is_active
        · constructor
          · intro hx
            rw [h1] at hx
            cases hx
          · intro hne
            rw [h1, h2, hb] at hne
            exact absurd rfl hne
        · constructor
          · intro hx
            rw [h2, hb]
          · intro hne
            exact ⟨by rw [h2, hb], h1,
              now, rfl, it.end_at, by simp [endAtOf, hfi], hend⟩
      · have h1 : isActiveOf (step s (Op.sweep now)) i =
            some it.is_active := by
          rw [h, hfi]
          simp [hend]
        constructor
        · intro hx
          rw [h1] at hx
          rw [h2]
          exact hx
        · intro hne
          rw [h1, h2] at hne
          exact absurd rfl hne

/-- Witness for C6: sweeping `endedStore` at time 100 flips the expired
auction's `is_active` from true to false. -/
theorem is_active_one_way_witness :
    isActiveOf endedStore 1 = some true ∧
    isActiveOf (step endedStore (Op.sweep 100)) 1 = some false := by
  have h := is_active_one_way endedStore (Op.sweep 100) 1
  have hne : isActiveOf (step endedStore (Op.sweep 100)) 1 ≠
      isActiveOf endedStore 1 := by decide
  obtain ⟨hb, ha, -⟩ := h.2 hne
  exact ⟨hb, ha⟩

/-- C8: when the commit fails, the handler rolls the session back: the
store after the call is exactly the store before it (no `current_bid`
update, no appended row), the call never returns a bid, and whenever the
request had passed validation the surfaced error is precisely
`StorageUnavailable` (the HTTP 500 branch, distinct from every
validation rejection). -/
theorem storage_fault_atomic (s : Store) (i u : Nat) (amount : Rat)
    (bidId : Nat) (ts : Int) :
    (add_bid s i u amount bidId ts false).1 = s ∧
    (∀ b, (add_bid s i u amount bidId ts false).2 ≠ Except.ok b) ∧
    (∀ it, findItem s i = some it → it.owner_id ≠ u →
      amountOk it amount →
      (add_bid s i u amount bidId ts false).2 =
        Except.error BidError.StorageUnavailable) := by
  refine ⟨?_, ?_, ?_⟩
  · unfold add_bid
    split
    next => rfl
    next item hf =>
      split
      next => rfl
      next =>
        split
        next hc =>
          split
          next => rfl
          next => rfl
        next cb hc =>
          split
          next => rfl
          next => rfl
  · intro b
    unfold add_bid
    split
    next => exact fun hb => nomatch hb
    next item hf =>
      split
      next => exact fun hb => nomatch hb
      next =>
        split
        next hc =>
          split
          next => exact fun hb => nomatch hb
          next => exact fun hb => nomatch hb
        next cb hc =>
          split
          next => exact fun hb => nomatch hb
          next => exact fun hb => nomatch hb
  · intro it hf2 ho2 ham
    unfold add_bid
    split
    next hfn => rw [hf2] at hfn; cases hfn
    next item hf =>
      rw [hf2] at hf
      injection hf with hit
      subst hit
      split
      next ho => exact absurd (by simpa using ho) ho2
      next =>
        split
        next hc =>
          unfold amountOk at ham
          rw [hc] at ham
          split
          next ha => exact absurd ha ham
          next => rfl
        next cb hc =>
          unfold amountOk at ham
          rw [hc] at ham
          split
          next ha => exact absurd ha ham
          next => rfl

/-- Witness for C8: a commit failure on a validated bid of 200 by user 3
on `raceStore` leaves the store untouched and surfaces
`StorageUnavailable`. -/
theorem storage_fault_atomic_witness :
    (add_bid raceStore 1 3 200 9 70 false).1 = raceStore ∧
    findItem raceStore 1 = some raceItem ∧ raceItem.owner_id ≠ 3 ∧
    amountOk raceItem 200 ∧
    (add_bid raceStore 1 3 200 9 70 false).2 =
      Except.error BidError.StorageUnavailable := by
  have h := storage_fault_atomic raceStore 1 3 200 9 70
  have ham : amountOk raceItem 200 := by
    show ¬ (200 : Rat) < 150
    norm_num
  exact ⟨h.1, rfl, by decide, ham, h.2.2 raceItem rfl (by decide) ham⟩

/-- C9: admission never involves the identity of the current leading
bidder: for any non-owner user and amount at least `current_bid`, the bid
is admitted, whatever the ledger contains, and the outcome of the call
does not depend on the bids table at all. -/
theorem leading_bidder_may_rebid (s : Store) (i u : Nat) (it : Item)
    (c amount : Rat) (bidId : Nat) (ts : Int)
    (hf : findItem s i = some it) (ho : it.owner_id ≠ u)
    (hc : it.current_bid = some c) (hge : c ≤ amount) :
    (add_bid s i u amount bidId ts true).2 =
      Except.ok { id := bidId, user_id := u, item_id := i, bid := amount,
                  created_at := ts } ∧
    ∀ otherBids : List Bid,
      (add_bid { s with bids := otherBids } i u amount bidId ts true).2 =
        (add_bid s i u amount bidId ts true).2 := by
  have hob : (it.owner_id == u) = false := beq_false_of_ne ho
  have hdec : bidDecision s i u amount = none := by
    simp [bidDecision, hf, hob, hc, not_lt.mpr hge]
  constructor
  · rw [add_bid_eq_decision_apply, hdec]
  · intro otherBids
    have hdec2 : bidDecision { s with bids := otherBids } i u amount =
        bidDecision s i u amount := rfl
    rw [add_bid_eq_decision_apply, add_bid_eq_decision_apply, hdec2]
    cases bidDecision s i u amount <;> rfl

/-- Witness for C9: user 2 already holds the leading bid of 150 in
`raceStore` and their further bid of 200 is admitted. -/
theorem leading_bidder_may_rebid_witness :
    findItem raceStore 1 = some raceItem ∧ raceItem.owner_id ≠ 2 ∧
    raceItem.current_bid = some 150 ∧ ((150 : Rat) ≤ 200) ∧
    (ledgerOf raceStore 1).getLast? =
      some { id := 1, user_id := 2, item_id := 1, bid := 150,
             created_at := 5 } ∧
    (add_bid raceStore 1 2 200 7 60 true).2 =
      Except.ok { id := 7, user_id := 2, item_id := 1, bid := 200,
                  created_at := 60 } := by
  refine ⟨rfl, by decide, rfl, by norm_num, rfl, ?_⟩
  exact (leading_bidder_may_rebid raceStore 1 2 raceItem 150 200 7 60 rfl
    (by decide) rfl (by norm_num)).1

/-- Reading one position of a list known to be the image of a map. -/
theorem get_of_eq_map (l l2 : List Item) (f : Item → Item)
    (h : l2 = l.map f) (k : Nat) (hk : k < l.length) (hk2 : k < l2.length) :
    l2.get ⟨k, hk2⟩ = f (l.get ⟨k, hk⟩) := by
  subst h
  simp [List.get_eq_getElem]

/-- Inversion of a successful `add_bid` call: success happens only with a
successful commit, the returned bid is the staged row, and the resulting
store is exactly the input store with `current_bid` rewritten on the
target id and the one row appended. -/
theorem add_bid_ok (s : Store) (i u : Nat) (amount : Rat) (bidId : Nat)
    (ts : Int) (ck : Bool) (b : Bid)
    (hok : (add_bid s i u amount bidId ts ck).2 = Except.ok b) :
    ck = true ∧
    b = { id := bidId, user_id := u, item_id := i, bid := amount,
          created_at := ts } ∧
    (add_bid s i u amount bidId ts ck).1 =
      { items := setCurrentBid s.items i amount,
        bids := s.bids ++ [b] } := by
  unfold add_bid at hok ⊢
  split at hok
  next => simp at hok
  next item hf =>
    split at hok
    next => simp at hok
    next ho =>
      have hob : (item.owner_id == u) = false := by
        simpa using ho
      split at hok
      next hc =>
        split at hok
        next => simp at hok
        next ha =>
          cases ck with
          | false => simp [commitBid] at hok
          | true =>
            have hb : b = { id := bidId, user_id := u, item_id := i,
                            bid := amount, created_at := ts } := by
              simpa [commitBid] using hok.symm
            refine ⟨rfl, hb, ?_⟩
            simp [hf, hob, hc, ha, commitBid, hb]
      next cb hc =>
        split at hok
        next => simp at hok
        next ha =>
          cases ck with
          | false => simp [commitBid] at hok
          | true =>
            have hb : b = { id := bidId, user_id := u, item_id := i,
                            bid := amount, created_at := ts } := by
              simpa [commitBid] using hok.symm
            refine ⟨rfl, hb, ?_⟩
            simp [hf, hob, hc, ha, commitBid, hb]

/-- C10: a successful `add_bid` call appends exactly the returned bid row
to the bids table and rewrites the items table pointwise: every row with
an id other than the target keeps all its fields, and the target row
differs only in `current_bid`; nothing else in the store changes. -/
theorem add_bid_frame (s : Store) (i u : Nat) (amount : Rat) (bidId : Nat)
    (ts : Int) (ck : Bool) (b : Bid)
    (hok : (add_bid s i u amount bidId ts ck).2 = Except.ok b) :
    (add_bid s i u amount bidId ts ck).1.bids = s.bids ++ [b] ∧
    (add_bid s i u amount bidId ts ck).1.items =
      s.items.map (fun it =>
        if it.id == i then { it with current_bid := some amount }
        else it) ∧
    ∀ k, ∀ hk : k < s.items.length,
      ∃ hk2 : k < (add_bid s i u amount bidId ts ck).1.items.length,
        (add_bid s i u amount bidId ts ck).1.items.get ⟨k, hk2⟩ =
          (if (s.items.get ⟨k, hk⟩).id = i
            then { s.items.get ⟨k, hk⟩ with current_bid := some amount }
            else s.items.get ⟨k, hk⟩) := by
  obtain ⟨hck, hb, heq⟩ := add_bid_ok s i u amount bidId ts ck b hok
  refine ⟨by rw [heq], by rw [heq]; rfl, ?_⟩
  intro k hk
  have hlen : (add_bid s i u amount bidId ts ck).1.items.length =
      s.items.length := by
    rw [heq]
    simp [setCurrentBid]
  have hk2 : k < (add_bid s i u amount bidId ts ck).1.items.length := by
    rw [hlen]
    exact hk
  refine ⟨hk2, ?_⟩
  rw [get_of_eq_map s.items (add_bid s i u amount bidId ts ck).1.items
    (fun it =>
      if it.id == i then { it with current_bid := some amount } else it)
    (by rw [heq]; rfl) k hk hk2]
  by_cases hcase : (s.items.get ⟨k, hk⟩).id = i <;> simp [hcase]

/-- Witness for C10: the admitted first bid of 120 by user 2 on the fresh
auction appends exactly one row and rewrites only `current_bid`. -/
theorem add_bid_frame_witness :
    (add_bid freshStore 1 2 120 1 10 true).2 =
      Except.ok { id := 1, user_id := 2, item_id := 1, bid := 120,
                  created_at := 10 } ∧
    (add_bid freshStore 1 2 120 1 10 true).1.bids =
      freshStore.bids ++ [{ id := 1, user_id := 2, item_id := 1,
                            bid := 120, created_at := 10 }] ∧
    (add_bid freshStore 1 2 120 1 10 true).1.items =
      freshStore.items.map (fun it =>
        if it.id == 1 then { it with current_bid := some 120 }
        else it) := by
  have h := add_bid_frame freshStore 1 2 120 1 10 true
    { id := 1, user_id := 2, item_id := 1, bid := 120, created_at := 10 }
    rfl
  exact ⟨rfl, h.1, h.2.1⟩

end Bidz
